import Mathlib

/-!
# Verification of the player-log binary codec

A shallow embedding, over `Nat` and `List Nat`, of the record model and the
serialization code in `src/player_log.rs`, together with proofs of the
specification's testable properties.

Conventions of the embedding:
* Rust `u8`/`u16`/`u64` values are `Nat`s; an `as u8`/`as u64` cast in the
  source becomes an explicit `% 256` / `% 2 ^ 64`.
* `Vec<u8>`, `[u8; 4]`, `[u8; 16]` and `Uuid` become `List Nat` (with length
  and bound side conditions carried as hypotheses where the Rust types
  guarantee them).
* A Rust `String` becomes its list of Unicode scalar values (`List Nat`);
  `String::len` is the length of its UTF-8 encoding, which we model with an
  explicit UTF-8 encoder, and `String::from_utf8` with a strict UTF-8 decoder.
* Fallible operations (`anyhow::Result`) become `Except String`, carrying the
  error text of the corresponding `bail!`/`context` call.  Reader failures
  (short reads) carry the byte-oriented message "failed to fill whole buffer".
-/

/-! ## Byte-stream reader primitives (`byteorder` / `std::io::Read`) -/

/-- Model of `read_u8`: take one byte off the front of the stream. -/
def readU8 : List Nat → Except String (Nat × List Nat)
  | [] => .error "failed to fill whole buffer"
  | b :: rest => .ok (b, rest)

/-- Model of `read_exact` into a buffer of length `n`. -/
def readExact (n : Nat) (l : List Nat) : Except String (List Nat × List Nat) :=
  if n ≤ l.length then .ok (l.take n, l.drop n) else .error "failed to fill whole buffer"

/-- Model of `read_u16::<BigEndian>`. -/
def readU16BE : List Nat → Except String (Nat × List Nat)
  | b0 :: b1 :: rest => .ok (b0 * 256 + b1, rest)
  | _ => .error "failed to fill whole buffer"

/-- Model of `read_u64::<BigEndian>`. -/
def readU64BE : List Nat → Except String (Nat × List Nat)
  | b0 :: b1 :: b2 :: b3 :: b4 :: b5 :: b6 :: b7 :: rest =>
      .ok (((((((b0 * 256 + b1) * 256 + b2) * 256 + b3) * 256 + b4) * 256 + b5) * 256
        + b6) * 256 + b7, rest)
  | _ => .error "failed to fill whole buffer"

/-- Model of `write_u64::<BigEndian>(n as u64)`: the eight big-endian bytes of
`n` (each byte depends only on `n % 2 ^ 64`, so the `as u64` cast is absorbed). -/
def u64BE (n : Nat) : List Nat :=
  [n / 2 ^ 56 % 256, n / 2 ^ 48 % 256, n / 2 ^ 40 % 256, n / 2 ^ 32 % 256,
   n / 2 ^ 24 % 256, n / 2 ^ 16 % 256, n / 2 ^ 8 % 256, n % 256]

/-! ## UTF-8 (Rust `String` / `String::from_utf8`) -/

/-- A Unicode scalar value, the invariant of a Rust `char`. -/
def isUnicodeScalar (c : Nat) : Bool :=
  c < 0xD800 || (0xE000 ≤ c && c < 0x110000)

/-- UTF-8 encoding of one Unicode scalar value. -/
def utf8EncodeChar (c : Nat) : List Nat :=
  if c < 0x80 then [c]
  else if c < 0x800 then [0xC0 + c / 64, 0x80 + c % 64]
  else if c < 0x10000 then [0xE0 + c / 4096, 0x80 + c / 64 % 64, 0x80 + c % 64]
  else [0xF0 + c / 262144, 0x80 + c / 4096 % 64, 0x80 + c / 64 % 64, 0x80 + c % 64]

/-- UTF-8 encoding of a string given as its Unicode scalar values; this is the
byte content of a Rust `String` (so its length is `String::len`). -/
def utf8Encode (s : List Nat) : List Nat :=
  (s.map utf8EncodeChar).flatten

/-- One step of strict UTF-8 decoding: read one scalar value off the front of
the stream, rejecting stray or missing continuation bytes, overlong forms,
surrogates and values above `0x10FFFF`. -/
def utf8DecodeChar : List Nat → Option (Nat × List Nat)
  | [] => none
  | b :: rest =>
    if b < 0x80 then some (b, rest)
    else if b < 0xC2 then none
    else if b < 0xE0 then
      match rest with
      | b1 :: rest2 =>
        if 0x80 ≤ b1 ∧ b1 < 0xC0 then some ((b - 0xC0) * 64 + (b1 - 0x80), rest2)
        else none
      | [] => none
    else if b < 0xF0 then
      match rest with
      | b1 :: b2 :: rest2 =>
        if (0x80 ≤ b1 ∧ b1 < 0xC0) ∧ (0x80 ≤ b2 ∧ b2 < 0xC0) then
          let c := (b - 0xE0) * 4096 + (b1 - 0x80) * 64 + (b2 - 0x80)
          if 0x800 ≤ c ∧ ¬(0xD800 ≤ c ∧ c < 0xE000) then some (c, rest2) else none
        else none
      | _ => none
    else if b < 0xF5 then
      match rest with
      | b1 :: b2 :: b3 :: rest2 =>
        if (0x80 ≤ b1 ∧ b1 < 0xC0) ∧ (0x80 ≤ b2 ∧ b2 < 0xC0) ∧ (0x80 ≤ b3 ∧ b3 < 0xC0) then
          let c := (b - 0xF0) * 262144 + (b1 - 0x80) * 4096 + (b2 - 0x80) * 64 + (b3 - 0x80)
          if 0x10000 ≤ c ∧ c < 0x110000 then some (c, rest2) else none
        else none
      | _ => none
    else none

/-- Fuel-driven UTF-8 decoding loop; each step consumes at least one byte, so
a fuel of the stream's length suffices. -/
def utf8DecodeGo : Nat → List Nat → Option (List Nat)
  | _, [] => some []
  | 0, _ :: _ => none
  | fuel + 1, b :: rest =>
    match utf8DecodeChar (b :: rest) with
    | none => none
    | some (c, rest2) => (utf8DecodeGo fuel rest2).map (c :: ·)

/-- Strict UTF-8 decoding of a whole byte stream, the model of
`String::from_utf8`. -/
def utf8Decode (l : List Nat) : Option (List Nat) :=
  utf8DecodeGo l.length l

/-! ## Version registry (`VERSIONS`) -/

/-- The `phf_map!` version table: label → code. -/
def VERSIONS : List (String × Nat) :=
  [("1.8", 1), ("1.9", 2), ("1.10", 3), ("1.11", 4), ("1.12", 5), ("1.13", 6), ("1.14", 7),
   ("1.15", 8), ("1.16", 9), ("1.17", 10), ("1.18", 11), ("1.19", 12), ("1.20", 13),
   ("1.21", 14)]

/-- Model of `VERSIONS.get(label)`. -/
def versionsGet (label : String) : Option Nat :=
  (VERSIONS.find? (fun e => e.1 == label)).map (·.2)

/-- Model of `VERSIONS.entries().find(|(_, n)| **n == code)`, giving the label. -/
def versionsFindByCode (code : Nat) : Option String :=
  (VERSIONS.find? (fun e => e.2 == code)).map (·.1)

/-! ## Record model -/

/-- The compact (wire-oriented) record, `struct PlayerLog`. -/
structure PlayerLog where
  binary_version : Nat
  flags : Nat
  player_uuid : Option (List Nat)
  player_name : List Nat
  player_ip : List Nat
  server_ip : List Nat
  server_port : Nat
  server_domain : List Nat
  server_version : Nat
deriving DecidableEq, Repr

/-- The validated (editable) record, `struct PlayerLogBuilder`.  Text fields
are lists of Unicode scalar values (Rust `String`s); `player_uuid` is the raw
16 bytes of the `Uuid`. -/
structure PlayerLogBuilder where
  flags : Nat
  player_uuid : Option (List Nat)
  player_name : List Nat
  player_ip : List Nat
  server_ip : List Nat
  server_port : Nat
  server_domain : List Nat
  server_version : String
deriving DecidableEq, Repr

/-- Model of `PlayerLogBuilder::build`.  `self.player_name.len()` is the UTF-8
byte length of the name; `server_domain_bytes.truncate(255)` is a byte-level
truncation; the version label is resolved through `VERSIONS`. -/
def PlayerLogBuilder.build (b : PlayerLogBuilder) : Except String PlayerLog :=
  if 16 < (utf8Encode b.player_name).length then .error "Player name too long"
  else
    match versionsGet b.server_version with
    | none => .error "invalid server version"
    | some code =>
        .ok { binary_version := 1
              flags := b.flags
              player_uuid := b.player_uuid
              player_name := utf8Encode b.player_name
              player_ip := b.player_ip
              server_ip := b.server_ip
              server_port := b.server_port
              server_domain := (utf8Encode b.server_domain).take 255
              server_version := code }

/-- Model of `PlayerLogBuilder::from_log`.  `LogFlags::from_bits` succeeds
exactly when no bit above bit 1 is set, i.e. when `flags < 4`; the text fields
go through `String::from_utf8`; the version code is looked up in `VERSIONS`. -/
def PlayerLogBuilder.from_log (log : PlayerLog) : Except String PlayerLogBuilder :=
  if log.flags < 4 then
    match utf8Decode log.player_name with
    | none => .error "invalid player name"
    | some name =>
      match utf8Decode log.server_domain with
      | none => .error "invalid server domain"
      | some domain =>
        match versionsFindByCode log.server_version with
        | none => .error "invalid server version"
        | some label =>
            .ok { flags := log.flags
                  player_uuid := log.player_uuid
                  player_name := name
                  player_ip := log.player_ip
                  server_ip := log.server_ip
                  server_port := log.server_port
                  server_domain := domain
                  server_version := label }
  else .error "invalid flags"

/-! ## Single-record codec -/

/-- The bytes `PlayerLog::serialize` writes after the identity field: the two
length-prefixed variable fields (`len as u8` is `% 256`), the two IPv4 octet
arrays, the big-endian port and the version code. -/
def PlayerLog.serializeTail (log : PlayerLog) : List Nat :=
  [log.player_name.length % 256] ++ log.player_name
    ++ log.player_ip ++ log.server_ip
    ++ [log.server_port / 256, log.server_port % 256]
    ++ [log.server_domain.length % 256] ++ log.server_domain
    ++ [log.server_version]

/-- Model of `PlayerLog::serialize` against a writer that already holds `w`:
returns the writer's final contents together with the outcome.  The
binary-version and flags bytes are written before the identity check, so a
`missing player uuid` failure leaves them in the writer. -/
def PlayerLog.serializeSt (log : PlayerLog) (w : List Nat) : List Nat × Except String Unit :=
  let w1 := w ++ [log.binary_version, log.flags]
  if Nat.testBit log.flags 1 then
    match log.player_uuid with
    | none => (w1, .error "missing player uuid")
    | some uuid => (w1 ++ uuid ++ log.serializeTail, .ok ())
  else (w1 ++ log.serializeTail, .ok ())

/-- `PlayerLog::serialize` into a fresh buffer, returning the bytes on
success (the buffer is discarded on failure). -/
def PlayerLog.serialize (log : PlayerLog) : Except String (List Nat) :=
  match log.serializeSt [] with
  | (w, .ok ()) => .ok w
  | (_, .error e) => .error e

/-- Model of `PlayerLog::deserialize`: reads the fields in wire order from the
front of `l` and returns the record together with the unconsumed rest. -/
def PlayerLog.deserialize (l : List Nat) : Except String (PlayerLog × List Nat) :=
  match readU8 l with
  | .error e => .error e
  | .ok (binary_version, l1) =>
    if binary_version ≠ 1 then .error "invalid binary version"
    else
      match readU8 l1 with
      | .error e => .error e
      | .ok (flags, l2) =>
        if 4 ≤ flags then .error "invalid flags"
        else
          match (if Nat.testBit flags 1 then
                  (readExact 16 l2).map (fun p => (some p.1, p.2))
                 else .ok (none, l2) : Except String (Option (List Nat) × List Nat)) with
          | .error e => .error e
          | .ok (player_uuid, l3) =>
            match readU8 l3 with
            | .error e => .error e
            | .ok (name_len, l4) =>
              match readExact name_len l4 with
              | .error e => .error e
              | .ok (player_name, l5) =>
                match readExact 4 l5 with
                | .error e => .error e
                | .ok (player_ip, l6) =>
                  match readExact 4 l6 with
                  | .error e => .error e
                  | .ok (server_ip, l7) =>
                    match readU16BE l7 with
                    | .error e => .error e
                    | .ok (server_port, l8) =>
                      match readU8 l8 with
                      | .error e => .error e
                      | .ok (domain_len, l9) =>
                        match readExact domain_len l9 with
                        | .error e => .error e
                        | .ok (server_domain, l10) =>
                          match readU8 l10 with
                          | .error e => .error e
                          | .ok (server_version, l11) =>
                            .ok ({ binary_version := binary_version
                                   flags := flags
                                   player_uuid := player_uuid
                                   player_name := player_name
                                   player_ip := player_ip
                                   server_ip := server_ip
                                   server_port := server_port
                                   server_domain := server_domain
                                   server_version := server_version }, l11)

/-! ## Batch codec (`PlayerLogSerializer`) -/

/-- Fuel-driven worker for `slice::chunks`: `fuel` bounds the recursion depth
and is instantiated with the list's length, which suffices whenever `0 < n`
(the only way the source calls it, since the chunk size there is
`(len / 10).max(1)`). -/
def chunkListGo (n : Nat) : Nat → List α → List (List α)
  | _, [] => []
  | 0, _ :: _ => []
  | fuel + 1, x :: xs => (x :: xs).take n :: chunkListGo n fuel ((x :: xs).drop n)

/-- Model of `logs.chunks(n)`: the contiguous chunks of size `n` (last chunk
possibly shorter). -/
def chunkList (n : Nat) (l : List α) : List (List α) :=
  chunkListGo n l.length l

/-- Serializing one chunk into its own fresh buffer,
`c.iter().try_for_each(|log| log.serialize(&mut buf))`. -/
def serializeChunk (c : List PlayerLog) : Except String (List Nat) :=
  c.foldlM (fun buf log =>
    match log.serializeSt buf with
    | (w, .ok ()) => .ok w
    | (_, .error e) => .error e) []

/-- Model of `PlayerLogSerializer::serialization_helper`, with the order in
which the chunk buffers come back from the parallel collect made explicit:
`rayon`'s `par_bridge()` does not guarantee that `collect` preserves the
order of the bridged iterator, so the buffers may arrive as any permutation
of the chunks; `gather` names the arrangement a particular run produces.  The
8-byte big-endian count is written first in every case. -/
def PlayerLogSerializer.serializationHelperGather
    (gather : List (List Nat) → List (List Nat)) (logs : List PlayerLog) :
    Except String (List Nat) :=
  match (chunkList (max (logs.length / 10) 1) logs).mapM serializeChunk with
  | .error e => .error e
  | .ok bufs => .ok (u64BE logs.length ++ (gather bufs).flatten)

/-- `PlayerLogSerializer::serialize_many` under the in-order gather (the
schedule in which the parallel collect happens to return the chunk buffers in
their original order). -/
def PlayerLogSerializer.serialize_many (logs : List PlayerLog) : Except String (List Nat) :=
  PlayerLogSerializer.serializationHelperGather id logs

/-- Reading `n` consecutive records, `(0..len).map(|_| deserialize).collect()`. -/
def readRecords : Nat → List Nat → Except String (List PlayerLog)
  | 0, _ => .ok []
  | n + 1, l =>
    match PlayerLog.deserialize l with
    | .error e => .error e
    | .ok (log, l') =>
      match readRecords n l' with
      | .error e => .error e
      | .ok rest => .ok (log :: rest)

/-- Model of `PlayerLogSerializer::deserialize_many` (via `deserialize_helper`):
read the 8-byte count, then that many records; trailing bytes are ignored. -/
def PlayerLogSerializer.deserialize_many (data : List Nat) : Except String (List PlayerLog) :=
  match readU64BE data with
  | .error e => .error e
  | .ok (len, l) => readRecords len l

/-! ## Decidability of `Except` equality, for concrete evaluations -/

instance {ε : Type u} {α : Type v} [DecidableEq ε] [DecidableEq α] :
    DecidableEq (Except ε α) := fun a b =>
  match a, b with
  | .error e, .error f =>
    if h : e = f then .isTrue (by rw [h]) else .isFalse (fun hh => h (Except.error.inj hh))
  | .ok x, .ok y =>
    if h : x = y then .isTrue (by rw [h]) else .isFalse (fun hh => h (Except.ok.inj hh))
  | .error _, .ok _ => .isFalse (fun hh => Except.noConfusion hh)
  | .ok _, .error _ => .isFalse (fun hh => Except.noConfusion hh)

/-! ## Concrete sample records -/

/-- A minimal valid offline compact record. -/
def sampleRecord : PlayerLog :=
  { binary_version := 1, flags := 0, player_uuid := none, player_name := [65],
    player_ip := [1, 2, 3, 4], server_ip := [5, 6, 7, 8], server_port := 80,
    server_domain := [100], server_version := 1 }

/-- A second valid record, distinguishable from `sampleRecord` by its port. -/
def sampleRecordB : PlayerLog := { sampleRecord with server_port := 81 }

/-- A compact record whose "is online" bit (bit 1) is set but whose identity
field is absent: the single inconsistent shape the encoder rejects. -/
def sampleOnlineNoUuid : PlayerLog := { sampleRecord with flags := 2 }

/-- The validated record of the spec's concrete scenario: flags `ONLINE`,
a fixed 16-byte identity, name `"Alice"`, IPs `1.2.3.4` / `5.6.7.8`,
port `25565`, hostname `"play.example.com"`, version label `"1.20"`. -/
def builder4 : PlayerLogBuilder :=
  { flags := 2, player_uuid := some (List.replicate 16 0),
    player_name := [65, 108, 105, 99, 101],
    player_ip := [1, 2, 3, 4], server_ip := [5, 6, 7, 8], server_port := 25565,
    server_domain := [112, 108, 97, 121, 46, 101, 120, 97, 109, 112, 108, 101, 46, 99, 111, 109],
    server_version := "1.20" }

/-- The scenario record with a 9-character non-ASCII name (é × 9), whose UTF-8
encoding is 18 bytes. -/
def builder6 : PlayerLogBuilder := { builder4 with player_name := List.replicate 9 0xE9 }

/-! ## C1 -/

/-- C1: the claim says `deserialize_many(serialize_many(xs)) = xs` for every
non-empty `xs`, regardless of the encoder's internal chunking.  The encoder
collects its chunk buffers through `rayon`'s `par_bridge()`, which does not
guarantee the order of `collect`, so the concatenation order of the chunk
buffers is schedule-dependent (any permutation of them is admissible);
`serializationHelperGather` makes that order an explicit parameter.  For the
two-record batch `[sampleRecord, sampleRecordB]` (two one-record chunks), the
in-order gather round-trips, but the reversed gather — equally admissible —
decodes to the records swapped, contradicting the claim (and the
`assert_eq!` in `src/main.rs`). -/
theorem c1_par_bridge_gather_reorders :
    ((PlayerLogSerializer.serializationHelperGather id
        [sampleRecord, sampleRecordB]).bind PlayerLogSerializer.deserialize_many
      = .ok [sampleRecord, sampleRecordB])
    ∧ ((PlayerLogSerializer.serializationHelperGather List.reverse
        [sampleRecord, sampleRecordB]).bind PlayerLogSerializer.deserialize_many
      = .ok [sampleRecordB, sampleRecord])
    ∧ [sampleRecordB, sampleRecord] ≠ [sampleRecord, sampleRecordB] :=
  ⟨by decide, by decide, by decide⟩

/-! ## C4 -/

/-- C4 counterexample: building and serializing the spec's concrete scenario
record does not produce 53 bytes (the hostname `"play.example.com"` is 16
bytes, not 17). -/
theorem c4_not_53_bytes :
    (builder4.build.bind PlayerLog.serialize).map List.length ≠ .ok 53 := by decide

/-- C4 (amended): the scenario record builds successfully and serializes to
exactly 52 bytes, with byte 0 = `0x01`, byte 1 = `0x02` and final byte
`0x0D`. -/
theorem c4_scenario_52_bytes :
    (builder4.build.bind PlayerLog.serialize).map List.length = .ok 52
    ∧ (builder4.build.bind PlayerLog.serialize).map (fun l => l.head?) = .ok (some 0x01)
    ∧ (builder4.build.bind PlayerLog.serialize).map (fun l => l[1]?) = .ok (some 0x02)
    ∧ (builder4.build.bind PlayerLog.serialize).map (fun l => l.getLast?) = .ok (some 0x0D) :=
  ⟨by decide, by decide, by decide, by decide⟩

/-! ## C5 counterexample -/

/-- C5 counterexample: with 11 records the chunk size is
`max (11 / 10) 1 = 1`, and the partition has 11 chunks — more than the 10 the
claim allows. -/
theorem c5_eleven_records_eleven_chunks :
    ¬ ((chunkList (max ((List.replicate 11 sampleRecord).length / 10) 1)
        (List.replicate 11 sampleRecord)).length ≤ 10) := by decide

/-! ## C7 -/

/-- C7: serializing a record whose flags have bit 1 ("is online") set but
whose identity is absent fails with the `missing player uuid` error, and
deserializing a stream whose flags byte has any bit above bit 1 set (i.e.
`4 ≤ flags`) fails with the `invalid flags` error. -/
theorem c7_flag_identity_consistency :
    (∀ log : PlayerLog, Nat.testBit log.flags 1 = true → log.player_uuid = none →
      log.serialize = .error "missing player uuid")
    ∧ ∀ (f : Nat) (rest : List Nat), 4 ≤ f →
        PlayerLog.deserialize (1 :: f :: rest) = .error "invalid flags" := by
  constructor
  · intro log h1 h2
    simp [PlayerLog.serialize, PlayerLog.serializeSt, h1, h2]
  · intro f rest h
    simp [PlayerLog.deserialize, readU8, h]

/-- C7 witness: the two parts of `c7_flag_identity_consistency` at concrete
inputs. -/
theorem c7_witness :
    sampleOnlineNoUuid.serialize = .error "missing player uuid"
    ∧ PlayerLog.deserialize [1, 4] = .error "invalid flags" :=
  ⟨c7_flag_identity_consistency.1 sampleOnlineNoUuid (by decide) rfl,
   c7_flag_identity_consistency.2 4 [] (by decide)⟩

/-! ## C8 -/

/-- C8 counterexample: a failing single-record serialize does not leave the
writer untouched — the encoder writes the binary-version byte and the flags
byte before the identity check, so the failed call leaves those two bytes in
the writer. -/
theorem c8_failing_serialize_writes_two_bytes :
    (sampleOnlineNoUuid.serializeSt []).1 ≠ []
    ∧ (sampleOnlineNoUuid.serializeSt []).1.length = 2
    ∧ (sampleOnlineNoUuid.serializeSt []).2 = .error "missing player uuid" :=
  ⟨by decide, by decide, by decide⟩

/-- C8 (amended): when single-record serialization fails, the writer holds
exactly its prior contents followed by the two already-written prefix bytes
(binary version and flags) — nothing more, nothing less. -/
theorem c8_failure_leaves_exactly_two_bytes (log : PlayerLog) (w : List Nat) (e : String)
    (h : (log.serializeSt w).2 = .error e) :
    (log.serializeSt w).1 = w ++ [log.binary_version, log.flags] := by
  unfold PlayerLog.serializeSt at h ⊢
  by_cases hb : Nat.testBit log.flags 1
  · simp only [hb, if_true] at h ⊢
    cases hu : log.player_uuid with
    | none => simp [hu]
    | some u => simp [hu] at h
  · simp [hb] at h

/-- C8 witness: `c8_failure_leaves_exactly_two_bytes` at the concrete failing
record. -/
theorem c8_witness :
    (sampleOnlineNoUuid.serializeSt []).2 = .error "missing player uuid"
    ∧ (sampleOnlineNoUuid.serializeSt []).1
      = [] ++ [sampleOnlineNoUuid.binary_version, sampleOnlineNoUuid.flags] :=
  ⟨by decide, c8_failure_leaves_exactly_two_bytes sampleOnlineNoUuid [] "missing player uuid" (by decide)⟩

/-! ## C9 -/

/-- C9: serializing the empty batch produces exactly the 8 zero bytes of the
big-endian 64-bit count 0 and nothing else, and deserializing them yields the
empty sequence. -/
theorem c9_empty_batch :
    PlayerLogSerializer.serialize_many [] = .ok (u64BE 0)
    ∧ u64BE 0 = [0, 0, 0, 0, 0, 0, 0, 0]
    ∧ (u64BE 0).length = 8
    ∧ PlayerLogSerializer.deserialize_many (u64BE 0) = .ok [] :=
  ⟨rfl, rfl, rfl, rfl⟩

/-! ## C2 -/

/-- Reading one byte off an explicitly cons-shaped stream. -/
theorem readU8_cons (b : Nat) (l : List Nat) : readU8 (b :: l) = .ok (b, l) := rfl

/-- Reading exactly the bytes of `a` off the front of `a ++ r`. -/
theorem readExact_append {a : List Nat} {n : Nat} (h : a.length = n) (r : List Nat) :
    readExact n (a ++ r) = .ok (a, r) := by
  subst h
  simp [readExact, List.take_left, List.drop_left]

/-- C2: any compact record with binary version 1, a flags byte confined to
bits 0–1, an identity field present exactly when bit 1 is set (and 16 bytes
long), name and hostname of at most 255 bytes, and in-range fixed-width
fields, round-trips byte-exactly through serialize then deserialize — with no
UTF-8 requirement on the name or hostname bytes. -/
theorem c2_single_record_roundtrip (log : PlayerLog)
    (hver : log.binary_version = 1)
    (hflags : log.flags < 4)
    (huuid : log.player_uuid.all (fun u => u.length == 16) = true)
    (hconsist : log.player_uuid.isSome = Nat.testBit log.flags 1)
    (hname : log.player_name.length ≤ 255)
    (hdom : log.server_domain.length ≤ 255)
    (hpip : log.player_ip.length = 4)
    (hsip : log.server_ip.length = 4)
    (hport : log.server_port < 65536) :
    log.serialize.bind PlayerLog.deserialize = .ok (log, []) := by
  obtain ⟨bv, fl, uu, nm, pip, sip, sp, sd, sv⟩ := log
  simp only at hver hflags huuid hconsist hname hdom hpip hsip hport
  subst hver
  have hname' : nm.length % 256 = nm.length := Nat.mod_eq_of_lt (by omega)
  have hdom' : sd.length % 256 = sd.length := Nat.mod_eq_of_lt (by omega)
  have hport' : sp / 256 * 256 + sp % 256 = sp := by omega
  have h4 : ¬ (4 ≤ fl) := by omega
  cases uu with
  | none =>
    have htb : Nat.testBit fl 1 = false := by simpa using hconsist.symm
    simp only [PlayerLog.serialize, PlayerLog.serializeSt, PlayerLog.serializeTail, htb,
      Bool.false_eq_true, if_false, List.nil_append, List.cons_append, List.singleton_append,
      List.append_assoc]
    simp [Except.bind, PlayerLog.deserialize, readU8_cons, hname', hdom',
      readExact_append (rfl : nm.length = nm.length), readExact_append hpip,
      readExact_append hsip, readExact_append (rfl : sd.length = sd.length),
      readU16BE, htb, h4, hport']
  | some u =>
    have hu16 : u.length = 16 := by simpa using huuid
    have htb : Nat.testBit fl 1 = true := by simpa using hconsist.symm
    simp only [PlayerLog.serialize, PlayerLog.serializeSt, PlayerLog.serializeTail, htb,
      if_true, List.nil_append, List.cons_append, List.singleton_append, List.append_assoc]
    simp [Except.bind, Except.map, PlayerLog.deserialize, readU8_cons, hname', hdom',
      readExact_append hu16, readExact_append (rfl : nm.length = nm.length),
      readExact_append hpip, readExact_append hsip,
      readExact_append (rfl : sd.length = sd.length), readU16BE, htb, h4, hport']

/-- A valid compact record whose name and hostname bytes are not valid UTF-8. -/
def sampleNonUtf8 : PlayerLog :=
  { binary_version := 1, flags := 2, player_uuid := some (List.replicate 16 9),
    player_name := [0xFF], player_ip := [9, 8, 7, 6], server_ip := [1, 1, 1, 1],
    server_port := 65535, server_domain := [0xC0], server_version := 14 }

/-- C2 witness: the round trip at a concrete record whose name and hostname
are not valid UTF-8. -/
theorem c2_witness :
    sampleNonUtf8.binary_version = 1 ∧ sampleNonUtf8.flags < 4
    ∧ sampleNonUtf8.player_uuid.all (fun u => u.length == 16) = true
    ∧ sampleNonUtf8.player_uuid.isSome = Nat.testBit sampleNonUtf8.flags 1
    ∧ sampleNonUtf8.player_name.length ≤ 255 ∧ sampleNonUtf8.server_domain.length ≤ 255
    ∧ sampleNonUtf8.player_ip.length = 4 ∧ sampleNonUtf8.server_ip.length = 4
    ∧ sampleNonUtf8.server_port < 65536
    ∧ utf8Decode sampleNonUtf8.player_name = none
    ∧ utf8Decode sampleNonUtf8.server_domain = none
    ∧ sampleNonUtf8.serialize.bind PlayerLog.deserialize = .ok (sampleNonUtf8, []) :=
  ⟨rfl, by decide, by decide, by decide, by decide, by decide, by decide, by decide, by decide,
   by decide, by decide,
   c2_single_record_roundtrip sampleNonUtf8 rfl (by decide) (by decide) (by decide) (by decide)
     (by decide) (by decide) (by decide) (by decide)⟩


/-! ## UTF-8 round trip (for C3) -/

/-- Decoding the UTF-8 bytes of one Unicode scalar value recovers it and
leaves the rest of the stream. -/
theorem utf8DecodeChar_encodeChar {c : Nat} (hc : isUnicodeScalar c = true) (rest : List Nat) :
    utf8DecodeChar (utf8EncodeChar c ++ rest) = some (c, rest) := by
  have hc' : c < 0xD800 ∨ (0xE000 ≤ c ∧ c < 0x110000) := by
    simpa [isUnicodeScalar, Bool.or_eq_true, Bool.and_eq_true, decide_eq_true_eq] using hc
  by_cases h1 : c < 0x80
  · simp [utf8EncodeChar, h1, utf8DecodeChar]
  · by_cases h2 : c < 0x800
    · have e1 : ¬ (0xC0 + c / 64 < 0x80) := by omega
      have e2 : ¬ (0xC0 + c / 64 < 0xC2) := by omega
      have e3 : 0xC0 + c / 64 < 0xE0 := by omega
      have e4 : 0x80 ≤ 0x80 + c % 64 ∧ 0x80 + c % 64 < 0xC0 := by omega
      have ev : (0xC0 + c / 64 - 0xC0) * 64 + (0x80 + c % 64 - 0x80) = c := by omega
      simp [utf8EncodeChar, h1, h2, utf8DecodeChar, e1, e2, e3, e4, ev]
      try omega
    · by_cases h3 : c < 0x10000
      · have e1 : ¬ (0xE0 + c / 4096 < 0x80) := by omega
        have e2 : ¬ (0xE0 + c / 4096 < 0xC2) := by omega
        have e3 : ¬ (0xE0 + c / 4096 < 0xE0) := by omega
        have e4 : 0xE0 + c / 4096 < 0xF0 := by omega
        have e5 : 0x80 ≤ 0x80 + c / 64 % 64 ∧ 0x80 + c / 64 % 64 < 0xC0 := by omega
        have e6 : 0x80 ≤ 0x80 + c % 64 ∧ 0x80 + c % 64 < 0xC0 := by omega
        have ev : (0xE0 + c / 4096 - 0xE0) * 4096 + (0x80 + c / 64 % 64 - 0x80) * 64
            + (0x80 + c % 64 - 0x80) = c := by omega
        have e7 : 0x800 ≤ c ∧ ¬ (0xD800 ≤ c ∧ c < 0xE000) := by omega
        simp [utf8EncodeChar, h1, h2, h3, utf8DecodeChar, e1, e2, e3, e4, e5, e6, ev, e7]
        try omega
      · have hub : c < 0x110000 := by omega
        have e1 : ¬ (0xF0 + c / 262144 < 0x80) := by omega
        have e2 : ¬ (0xF0 + c / 262144 < 0xC2) := by omega
        have e3 : ¬ (0xF0 + c / 262144 < 0xE0) := by omega
        have e4 : ¬ (0xF0 + c / 262144 < 0xF0) := by omega
        have e5 : 0xF0 + c / 262144 < 0xF5 := by omega
        have e6 : 0x80 ≤ 0x80 + c / 4096 % 64 ∧ 0x80 + c / 4096 % 64 < 0xC0 := by omega
        have e7 : 0x80 ≤ 0x80 + c / 64 % 64 ∧ 0x80 + c / 64 % 64 < 0xC0 := by omega
        have e8 : 0x80 ≤ 0x80 + c % 64 ∧ 0x80 + c % 64 < 0xC0 := by omega
        have ev : (0xF0 + c / 262144 - 0xF0) * 262144 + (0x80 + c / 4096 % 64 - 0x80) * 4096
            + (0x80 + c / 64 % 64 - 0x80) * 64 + (0x80 + c % 64 - 0x80) = c := by omega
        have e9 : 0x10000 ≤ c ∧ c < 0x110000 := by omega
        simp [utf8EncodeChar, h1, h2, h3, utf8DecodeChar, e1, e2, e3, e4, e5, e6, e7, e8, ev, e9]
        try omega

theorem utf8EncodeChar_length_pos (c : Nat) : 0 < (utf8EncodeChar c).length := by
  unfold utf8EncodeChar
  split <;> simp_all
  split <;> simp_all
  split <;> simp_all

/-- Decoding the UTF-8 encoding of a list of Unicode scalar values, with
enough fuel, recovers the list. -/
theorem utf8DecodeGo_encode (s : List Nat) : ∀ fuel : Nat,
    (∀ c ∈ s, isUnicodeScalar c = true) → (utf8Encode s).length ≤ fuel →
    utf8DecodeGo fuel (utf8Encode s) = some s := by
  induction s with
  | nil =>
    intro fuel _ _
    simp [utf8Encode, utf8DecodeGo]
  | cons c cs ih =>
    intro fuel hs hlen
    have hc := hs c (by simp)
    have hcs : ∀ x ∈ cs, isUnicodeScalar x = true := fun x hx => hs x (by simp [hx])
    have henc : utf8Encode (c :: cs) = utf8EncodeChar c ++ utf8Encode cs := by simp [utf8Encode]
    rw [henc] at hlen ⊢
    have hpos := utf8EncodeChar_length_pos c
    cases fuel with
    | zero =>
      exfalso
      rw [List.length_append] at hlen
      omega
    | succ f =>
      obtain ⟨b, bs, he⟩ : ∃ b bs, utf8EncodeChar c = b :: bs := by
        cases hcc : utf8EncodeChar c with
        | nil => rw [hcc] at hpos; simp at hpos
        | cons b bs => exact ⟨b, bs, rfl⟩
      rw [he, List.cons_append]
      simp only [utf8DecodeGo]
      rw [← List.cons_append, ← he, utf8DecodeChar_encodeChar hc]
      simp [ih f hcs (by rw [List.length_append] at hlen; omega)]

/-- The round trip behind `String::from_utf8(s.as_bytes())`: decoding the
UTF-8 encoding of a list of Unicode scalar values recovers the list. -/
theorem utf8Decode_encode (s : List Nat) (h : ∀ c ∈ s, isUnicodeScalar c = true) :
    utf8Decode (utf8Encode s) = some s :=
  utf8DecodeGo_encode s (utf8Encode s).length h le_rfl

/-! ## Chunk partition lemmas (for C5) -/

theorem chunkListGo_flatten {α : Type u} (n : Nat) (hn : 0 < n) :
    ∀ (fuel : Nat) (l : List α), l.length ≤ fuel →
      (chunkListGo n fuel l).flatten = l := by
  intro fuel
  induction fuel with
  | zero =>
    intro l h
    cases l with
    | nil => rfl
    | cons x xs => simp at h
  | succ f ih =>
    intro l h
    cases l with
    | nil => rfl
    | cons x xs =>
      simp only [chunkListGo, List.flatten_cons]
      rw [ih _ (by simp only [List.length_drop, List.length_cons] at h ⊢; omega)]
      exact List.take_append_drop n (x :: xs)

theorem chunkListGo_count {α : Type u} (n : Nat) (hn : 0 < n) :
    ∀ (fuel : Nat) (l : List α), l.length ≤ fuel →
      (chunkListGo n fuel l).length ≤ l.length := by
  intro fuel
  induction fuel with
  | zero =>
    intro l h
    cases l with
    | nil => simp [chunkListGo]
    | cons x xs => simp at h
  | succ f ih =>
    intro l h
    cases l with
    | nil => simp [chunkListGo]
    | cons x xs =>
      simp only [chunkListGo, List.length_cons]
      have := ih ((x :: xs).drop n) (by simp only [List.length_drop, List.length_cons] at h ⊢; omega)
      simp only [List.length_drop, List.length_cons] at this ⊢
      omega

theorem chunkListGo_mem {α : Type u} (n : Nat) (hn : 0 < n) :
    ∀ (fuel : Nat) (l : List α), l.length ≤ fuel →
      ∀ c ∈ chunkListGo n fuel l, c ≠ [] ∧ c.length ≤ n := by
  intro fuel
  induction fuel with
  | zero =>
    intro l h c hc
    cases l with
    | nil => simp [chunkListGo] at hc
    | cons x xs => simp at h
  | succ f ih =>
    intro l h c hc
    cases l with
    | nil => simp [chunkListGo] at hc
    | cons x xs =>
      simp only [chunkListGo, List.mem_cons] at hc
      rcases hc with rfl | hc
      · constructor
        · cases n with
          | zero => omega
          | succ m => simp [List.take_succ_cons]
        · simp [List.length_take]
      · exact ih _ (by simp only [List.length_drop, List.length_cons] at h ⊢; omega) c hc

theorem chunkListGo_eq_nil {α : Type u} (n : Nat) :
    ∀ (fuel : Nat) (l : List α), l.length ≤ fuel →
      (chunkListGo n fuel l = [] ↔ l = []) := by
  intro fuel l h
  cases l with
  | nil => cases fuel <;> simp [chunkListGo]
  | cons x xs =>
    cases fuel with
    | zero => simp at h
    | succ f => simp [chunkListGo]

theorem chunkListGo_dropLast {α : Type u} (n : Nat) (hn : 0 < n) :
    ∀ (fuel : Nat) (l : List α), l.length ≤ fuel →
      ∀ c ∈ (chunkListGo n fuel l).dropLast, c.length = n := by
  intro fuel
  induction fuel with
  | zero =>
    intro l h c hc
    cases l with
    | nil => simp [chunkListGo] at hc
    | cons x xs => simp at h
  | succ f ih =>
    intro l h c hc
    cases l with
    | nil => simp [chunkListGo] at hc
    | cons x xs =>
      simp only [chunkListGo] at hc
      by_cases hrest : (x :: xs).drop n = []
      · rw [hrest] at hc
        cases f <;> simp [chunkListGo] at hc
      · have hne : chunkListGo n f ((x :: xs).drop n) ≠ [] := by
          rw [ne_eq, chunkListGo_eq_nil n f _ (by simp only [List.length_drop, List.length_cons] at h ⊢; omega)]
          exact hrest
        rw [List.dropLast_cons_of_ne_nil hne, List.mem_cons] at hc
        rcases hc with rfl | hc
        · have hlen : n < (x :: xs).length := by
            by_contra hcon
            push_neg at hcon
            exact hrest (List.drop_eq_nil_of_le hcon)
          simp only [List.length_take, List.length_cons] at hlen ⊢
          omega
        · exact ih _ (by simp only [List.length_drop, List.length_cons] at h ⊢; omega) c hc

/-! ## Version registry inverse (for C3) -/

/-- Codes in `VERSIONS` are unique, so looking a label's code back up by code
finds the same label. -/
theorem versionsGet_findByCode {label : String} {code : Nat}
    (h : versionsGet label = some code) : versionsFindByCode code = some label := by
  unfold versionsGet at h
  rw [Option.map_eq_some'] at h
  obtain ⟨e, hfind, hcode⟩ := h
  have hmem : e ∈ VERSIONS := List.mem_of_find?_eq_some hfind
  have hlabel : e.1 = label := by simpa using List.find?_some hfind
  subst hcode
  subst hlabel
  fin_cases hmem <;> decide

/-! ## C3 -/

/-- C3: for a valid validated record — Unicode text fields, name of at most
16 UTF-8 bytes, hostname of at most 255 UTF-8 bytes, flags confined to the
two defined bits, version label present in the registry — `build` succeeds
and `from_log` converts the result back to the original record. -/
theorem c3_build_from_log_roundtrip (b : PlayerLogBuilder)
    (hnames : b.player_name.all isUnicodeScalar = true)
    (hdoms : b.server_domain.all isUnicodeScalar = true)
    (hnamelen : (utf8Encode b.player_name).length ≤ 16)
    (hdomlen : (utf8Encode b.server_domain).length ≤ 255)
    (hflags : b.flags < 4)
    (hver : (versionsGet b.server_version).isSome = true) :
    b.build.bind PlayerLogBuilder.from_log = .ok b := by
  obtain ⟨code, hcode⟩ := Option.isSome_iff_exists.mp hver
  rw [List.all_eq_true] at hnames hdoms
  obtain ⟨fl, uu, nm, pip, sip, sp, sd, svl⟩ := b
  simp only at hnames hdoms hnamelen hdomlen hflags hcode
  unfold PlayerLogBuilder.build
  simp only
  rw [if_neg (by omega), hcode]
  simp only [Except.bind]
  unfold PlayerLogBuilder.from_log
  simp only
  rw [if_pos hflags, List.take_of_length_le hdomlen, utf8Decode_encode nm hnames,
    utf8Decode_encode sd hdoms, versionsGet_findByCode hcode]

/-- C3 witness: `c3_build_from_log_roundtrip` at the concrete scenario
record. -/
theorem c3_witness :
    builder4.player_name.all isUnicodeScalar = true
    ∧ builder4.server_domain.all isUnicodeScalar = true
    ∧ (utf8Encode builder4.player_name).length ≤ 16
    ∧ (utf8Encode builder4.server_domain).length ≤ 255
    ∧ builder4.flags < 4
    ∧ (versionsGet builder4.server_version).isSome = true
    ∧ builder4.build.bind PlayerLogBuilder.from_log = .ok builder4 :=
  ⟨by decide, by decide, by decide, by decide, by decide, by decide,
   c3_build_from_log_roundtrip builder4 (by decide) (by decide) (by decide) (by decide)
     (by decide) (by decide)⟩

/-! ## C5 -/

/-- C5 (amended): for every input list, the encoder's partition — contiguous
chunks of size `max (len / 10) 1` — concatenates back to the input, has
every chunk non-empty and no larger than the chunk size, has every chunk but
possibly the last of exactly the chunk size, and never has more chunks than
records; but the number of chunks is not bounded by 10
(see the eleven-record counterexample). -/
theorem c5_chunk_partition_shape (logs : List PlayerLog) :
    ((chunkList (max (logs.length / 10) 1) logs).flatten = logs)
    ∧ ((chunkList (max (logs.length / 10) 1) logs).length ≤ logs.length)
    ∧ (∀ c ∈ chunkList (max (logs.length / 10) 1) logs,
        c ≠ [] ∧ c.length ≤ max (logs.length / 10) 1)
    ∧ (∀ c ∈ (chunkList (max (logs.length / 10) 1) logs).dropLast,
        c.length = max (logs.length / 10) 1) := by
  have hn : 0 < max (logs.length / 10) 1 := by omega
  exact ⟨chunkListGo_flatten _ hn _ _ le_rfl, chunkListGo_count _ hn _ _ le_rfl,
    chunkListGo_mem _ hn _ _ le_rfl, chunkListGo_dropLast _ hn _ _ le_rfl⟩

/-! ## C6 -/

/-- C6 counterexample: a name of nine `é` characters has UTF-8 byte length
18, and `build` rejects it with `Player name too long`, although its
character count (9) does not exceed 16 — the check is on bytes, not
characters. -/
theorem c6_nine_chars_rejected :
    builder6.player_name.length = 9
    ∧ builder6.player_name.all isUnicodeScalar = true
    ∧ (utf8Encode builder6.player_name).length = 18
    ∧ builder6.build = .error "Player name too long" :=
  ⟨by decide, by decide, by decide, by decide⟩

/-- C6 (amended): `build` fails with the name-length error exactly when the
name's UTF-8 byte length (Rust's `String::len`) exceeds 16; the character
count plays no role. -/
theorem c6_name_check_counts_bytes (b : PlayerLogBuilder) :
    b.build = .error "Player name too long" ↔ 16 < (utf8Encode b.player_name).length := by
  constructor
  · intro h
    by_contra hc
    push_neg at hc
    unfold PlayerLogBuilder.build at h
    rw [if_neg (by omega)] at h
    cases hv : versionsGet b.server_version with
    | none =>
      rw [hv] at h
      injection h with h
      exact absurd h (by decide)
    | some code =>
      rw [hv] at h
      exact Except.noConfusion h
  · intro h
    unfold PlayerLogBuilder.build
    rw [if_pos h]

/-! ## C10 -/

/-- Reading `n` bytes off `a ++ r` when `a` has at least `n` bytes. -/
theorem readExact_append_le {a : List Nat} {n : Nat} (h : n ≤ a.length) (r : List Nat) :
    readExact n (a ++ r) = .ok (a.take n, a.drop n ++ r) := by
  rw [readExact, if_pos (by simp [List.length_append]; omega), List.take_append_of_le_length h,
    List.drop_append_of_le_length h]

/-- A record with a name longer than 255 bytes whose online bit is set but
whose identity is absent: serializing it fails, so the claim's "serialize
nevertheless succeeds for every record with an overlong name" is false as
stated. -/
def longNameNoUuid : PlayerLog :=
  { sampleOnlineNoUuid with player_name := List.replicate 300 65 }

set_option maxRecDepth 4096 in
/-- C10 counterexample: serialization of an overlong-name record is not
always successful — it still fails when the online flag demands a missing
identity. -/
theorem c10_serialize_not_always_ok :
    255 < longNameNoUuid.player_name.length
    ∧ longNameNoUuid.serialize = .error "missing player uuid" :=
  ⟨by decide, by decide⟩

/-- C10 (amended): for a compact record with consistent identity whose name
or hostname exceeds 255 bytes, serialize succeeds, writing the field length
modulo 256 as the length prefix followed by all of the field's bytes (the
255-byte cap is not enforced at encode time), and the resulting bytes do not
deserialize back to the original record. -/
theorem c10_overlong_fields (log : PlayerLog)
    (hver : log.binary_version = 1)
    (hflags : log.flags < 4)
    (huuid : log.player_uuid.all (fun u => u.length == 16) = true)
    (hconsist : log.player_uuid.isSome = Nat.testBit log.flags 1)
    (hpip : log.player_ip.length = 4)
    (hsip : log.server_ip.length = 4)
    (hlong : 255 < log.player_name.length ∨ 255 < log.server_domain.length) :
    log.serialize = .ok ([log.binary_version, log.flags]
        ++ (if Nat.testBit log.flags 1 then log.player_uuid.getD [] else [])
        ++ log.serializeTail)
    ∧ (log.serialize.bind PlayerLog.deserialize).toOption.map (fun p => p.1) ≠ some log := by
  obtain ⟨bv, fl, uu, nm, pip, sip, sp, sd, sv⟩ := log
  simp only at hver hflags huuid hconsist hpip hsip hlong
  subst hver
  have h4 : ¬ (4 ≤ fl) := by omega
  cases uu with
  | none =>
    have htb : Nat.testBit fl 1 = false := by simpa using hconsist.symm
    have hser : PlayerLog.serialize ⟨1, fl, none, nm, pip, sip, sp, sd, sv⟩
        = .ok ([1, fl] ++ (if Nat.testBit fl 1 then (none : Option (List Nat)).getD [] else [])
            ++ PlayerLog.serializeTail ⟨1, fl, none, nm, pip, sip, sp, sd, sv⟩) := by
      simp [PlayerLog.serialize, PlayerLog.serializeSt, htb]
    refine ⟨hser, ?_⟩
    rw [hser]
    simp only [Except.bind, htb, Bool.false_eq_true, if_false, PlayerLog.serializeTail,
      List.nil_append, List.cons_append, List.singleton_append, List.append_assoc]
    by_cases hnm255 : 255 < nm.length
    · have hk : nm.length % 256 ≤ nm.length := Nat.mod_le _ _
      simp only [PlayerLog.deserialize, readU8_cons, h4, htb, readExact_append_le hk,
        ne_eq, not_false_eq_true, Bool.false_eq_true, not_true, if_false]
      split
      · simp [Except.toOption]
      split
      · simp [Except.toOption]
      split
      · simp [Except.toOption]
      split
      · simp [Except.toOption]
      split
      · simp [Except.toOption]
      split
      · simp [Except.toOption]
      simp only [Except.toOption]
      intro hcon
      rw [Option.map_eq_some'] at hcon
      obtain ⟨p, hp, hrec⟩ := hcon
      rw [Option.some.injEq] at hp
      have hname := congrArg PlayerLog.player_name (hp ▸ hrec)
      simp at hname
      have hmod : nm.length % 256 < 256 := Nat.mod_lt _ (by norm_num)
      omega
    · have hnm : nm.length ≤ 255 := by omega
      have hsd : 255 < sd.length := by
        rcases hlong with h | h
        · omega
        · exact h
      have hname' : nm.length % 256 = nm.length := Nat.mod_eq_of_lt (by omega)
      have hkd : sd.length % 256 ≤ sd.length := Nat.mod_le _ _
      simp only [PlayerLog.deserialize, readU8_cons, h4, htb, hname',
        readExact_append (rfl : nm.length = nm.length), readExact_append hpip,
        readExact_append hsip, readU16BE, readExact_append_le hkd,
        ne_eq, not_false_eq_true, Bool.false_eq_true, not_true, if_false]
      split
      · simp [Except.toOption]
      simp only [Except.toOption]
      intro hcon
      rw [Option.map_eq_some'] at hcon
      obtain ⟨p, hp, hrec⟩ := hcon
      rw [Option.some.injEq] at hp
      have hdom := congrArg PlayerLog.server_domain (hp ▸ hrec)
      simp at hdom
      have hmod : sd.length % 256 < 256 := Nat.mod_lt _ (by norm_num)
      omega
  | some u =>
    have hu16 : u.length = 16 := by simpa using huuid
    have htb : Nat.testBit fl 1 = true := by simpa using hconsist.symm
    have hser : PlayerLog.serialize ⟨1, fl, some u, nm, pip, sip, sp, sd, sv⟩
        = .ok ([1, fl] ++ (if Nat.testBit fl 1 then (some u).getD [] else [])
            ++ PlayerLog.serializeTail ⟨1, fl, some u, nm, pip, sip, sp, sd, sv⟩) := by
      simp [PlayerLog.serialize, PlayerLog.serializeSt, htb]
    refine ⟨hser, ?_⟩
    rw [hser]
    simp only [Except.bind, htb, if_true, Option.getD_some, PlayerLog.serializeTail,
      List.nil_append, List.cons_append, List.singleton_append, List.append_assoc]
    by_cases hnm255 : 255 < nm.length
    · have hk : nm.length % 256 ≤ nm.length := Nat.mod_le _ _
      simp only [PlayerLog.deserialize, readU8_cons, h4, htb, readExact_append hu16,
        readExact_append_le hk, Except.map, if_true,
        ne_eq, not_false_eq_true, not_true, if_false]
      split
      · simp [Except.toOption]
      split
      · simp [Except.toOption]
      split
      · simp [Except.toOption]
      split
      · simp [Except.toOption]
      split
      · simp [Except.toOption]
      split
      · simp [Except.toOption]
      simp only [Except.toOption]
      intro hcon
      rw [Option.map_eq_some'] at hcon
      obtain ⟨p, hp, hrec⟩ := hcon
      rw [Option.some.injEq] at hp
      have hname := congrArg PlayerLog.player_name (hp ▸ hrec)
      simp at hname
      have hmod : nm.length % 256 < 256 := Nat.mod_lt _ (by norm_num)
      omega
    · have hnm : nm.length ≤ 255 := by omega
      have hsd : 255 < sd.length := by
        rcases hlong with h | h
        · omega
        · exact h
      have hname' : nm.length % 256 = nm.length := Nat.mod_eq_of_lt (by omega)
      have hkd : sd.length % 256 ≤ sd.length := Nat.mod_le _ _
      simp only [PlayerLog.deserialize, readU8_cons, h4, htb, hname', readExact_append hu16,
        readExact_append (rfl : nm.length = nm.length), readExact_append hpip,
        readExact_append hsip, readU16BE, readExact_append_le hkd, Except.map, if_true,
        ne_eq, not_false_eq_true, not_true, if_false]
      split
      · simp [Except.toOption]
      simp only [Except.toOption]
      intro hcon
      rw [Option.map_eq_some'] at hcon
      obtain ⟨p, hp, hrec⟩ := hcon
      rw [Option.some.injEq] at hp
      have hdom := congrArg PlayerLog.server_domain (hp ▸ hrec)
      simp at hdom
      have hmod : sd.length % 256 < 256 := Nat.mod_lt _ (by norm_num)
      omega

/-- A valid compact record (identity present and consistent) whose name is
256 bytes long. -/
def c10Record : PlayerLog :=
  { binary_version := 1, flags := 2, player_uuid := some (List.replicate 16 7),
    player_name := List.replicate 256 65, player_ip := [1, 2, 3, 4],
    server_ip := [5, 6, 7, 8], server_port := 80, server_domain := [100],
    server_version := 1 }

set_option maxRecDepth 4096 in
/-- C10 witness: `c10_overlong_fields` at a concrete record with a 256-byte
name. -/
theorem c10_witness :
    (c10Record.binary_version = 1 ∧ c10Record.flags < 4
      ∧ c10Record.player_uuid.all (fun u => u.length == 16) = true
      ∧ c10Record.player_uuid.isSome = Nat.testBit c10Record.flags 1
      ∧ c10Record.player_ip.length = 4 ∧ c10Record.server_ip.length = 4
      ∧ (255 < c10Record.player_name.length ∨ 255 < c10Record.server_domain.length))
    ∧ (c10Record.serialize = .ok ([c10Record.binary_version, c10Record.flags]
        ++ (if Nat.testBit c10Record.flags 1 then c10Record.player_uuid.getD [] else [])
        ++ c10Record.serializeTail)
      ∧ (c10Record.serialize.bind PlayerLog.deserialize).toOption.map (fun p => p.1)
          ≠ some c10Record) :=
  ⟨⟨rfl, by decide, by decide, by decide, by decide, by decide, by decide⟩,
   c10_overlong_fields c10Record rfl (by decide) (by decide) (by decide) (by decide) (by decide)
     (by decide)⟩

/-- C5 witness: the binder-free parts of `c5_chunk_partition_shape` at the
eleven-record batch. -/
theorem c5_witness :
    (chunkList (max ((List.replicate 11 sampleRecord).length / 10) 1)
        (List.replicate 11 sampleRecord)).flatten = List.replicate 11 sampleRecord
    ∧ (chunkList (max ((List.replicate 11 sampleRecord).length / 10) 1)
        (List.replicate 11 sampleRecord)).length ≤ (List.replicate 11 sampleRecord).length :=
  ⟨(c5_chunk_partition_shape (List.replicate 11 sampleRecord)).1,
   (c5_chunk_partition_shape (List.replicate 11 sampleRecord)).2.1⟩

/-- C6 witness: `c6_name_check_counts_bytes` at the nine-`é` record. -/
theorem c6_witness :
    builder6.build = .error "Player name too long"
    ∧ 16 < (utf8Encode builder6.player_name).length :=
  ⟨(c6_name_check_counts_bytes builder6).mpr (by decide), by decide⟩
